import Mathlib

/-!
Shallow embedding of the gateway-api translator runner
(`internal/gatewayapi/runner/runner.go`): the reconciliation engine that
subscribes to whole-snapshot updates, translates each resource bundle,
validates and publishes the two intermediate-representation (IR) planes
(InfraIR / XdsIR), reconciles the thirteen per-kind status stores, and
cleans up stale keys.

The watchable stores are modelled as association lists (`SMap`), the
Translator as data carried by each bundle (its output and its returned
error), and `Validate()` on an IR entry as a boolean field of the entry.
Status values are modelled as `Nat`, with `0` playing the role of the Go
zero value tested by `reflect.ValueOf(...).IsZero()`.
-/

namespace GatewayAPIRunner

/-- `k8s.io/apimachinery/pkg/types.NamespacedName`: the status key for
twelve of the thirteen status stores. -/
structure NamespacedName where
  ns : String
  name : String
deriving DecidableEq, Repr

/-- `k8s.io/apimachinery/pkg/runtime/schema.GroupVersionKind`. -/
structure GroupVersionKind where
  group : String
  version : String
  kind : String
deriving DecidableEq, Repr

/-- `message.NamespacedNameAndGVK`: the composite status key used for the
extension-server-policy status store, which folds a group-version-kind
discriminator into the key. -/
structure NamespacedNameAndGVK where
  nn : NamespacedName
  gvk : GroupVersionKind
deriving DecidableEq, Repr

/-- An intermediate-representation entry (an `*ir.Infra` or `*ir.Xds`
value): opaque payload plus the outcome of its `Validate()` method
(`valid = true` iff `Validate()` returns `nil`). -/
structure IRVal where
  valid : Bool
  payload : Nat
deriving DecidableEq, Repr

/-- A watchable key-value store (`watchable.Map`), modelled as an
association list. `LoadAll` is the list itself; see `storeKV`,
`deleteKV`, `keysOf`, `lookupKV` for the point operations. -/
abbrev SMap (κ ν : Type) : Type := List (κ × ν)

variable {κ ν : Type}

/-- `Store(key, val)`: bind `k` to `v`, replacing any previous binding. -/
def storeKV [DecidableEq κ] (m : SMap κ ν) (k : κ) (v : ν) : SMap κ ν :=
  (k, v) :: m.filter (fun p => decide (p.1 ≠ k))

/-- `Delete(key)`: remove any binding of `k`. -/
def deleteKV [DecidableEq κ] (m : SMap κ ν) (k : κ) : SMap κ ν :=
  m.filter (fun p => decide (p.1 ≠ k))

/-- The key set of a store (the keys yielded by `LoadAll`). -/
def keysOf (m : SMap κ ν) : List κ :=
  m.map Prod.fst

/-- `Load(key)`: the value bound to `k`, if any. -/
def lookupKV [DecidableEq κ] (m : SMap κ ν) (k : κ) : Option ν :=
  (m.find? (fun p => decide (p.1 = k))).map Prod.snd

/-- The thirteen status-bearing resource kinds, one per status store of
`message.ProviderResources` touched by the runner: `GatewayStatuses`,
`HTTPRouteStatuses`, `GRPCRouteStatuses`, `TLSRouteStatuses`,
`TCPRouteStatuses`, `UDPRouteStatuses`, `BackendTLSPolicyStatuses`,
`ClientTrafficPolicyStatuses`, `BackendTrafficPolicyStatuses`,
`SecurityPolicyStatuses`, `EnvoyExtensionPolicyStatuses`,
`BackendStatuses`, `ExtensionPolicyStatuses`. -/
inductive Kind where
  | gateway
  | httpRoute
  | grpcRoute
  | tlsRoute
  | tcpRoute
  | udpRoute
  | backendTLSPolicy
  | clientTrafficPolicy
  | backendTrafficPolicy
  | securityPolicy
  | envoyExtensionPolicy
  | backend
  | extensionServerPolicy
deriving DecidableEq, Repr

/-- The key type of each kind's status store: `NamespacedNameAndGVK` for
extension server policies, `NamespacedName` for the other twelve. -/
def Kind.KeyOf : Kind → Type
  | .extensionServerPolicy => NamespacedNameAndGVK
  | _ => NamespacedName

instance instDecEqKeyOf (k : Kind) : DecidableEq k.KeyOf :=
  match k with
  | .gateway => inferInstanceAs (DecidableEq NamespacedName)
  | .httpRoute => inferInstanceAs (DecidableEq NamespacedName)
  | .grpcRoute => inferInstanceAs (DecidableEq NamespacedName)
  | .tlsRoute => inferInstanceAs (DecidableEq NamespacedName)
  | .tcpRoute => inferInstanceAs (DecidableEq NamespacedName)
  | .udpRoute => inferInstanceAs (DecidableEq NamespacedName)
  | .backendTLSPolicy => inferInstanceAs (DecidableEq NamespacedName)
  | .clientTrafficPolicy => inferInstanceAs (DecidableEq NamespacedName)
  | .backendTrafficPolicy => inferInstanceAs (DecidableEq NamespacedName)
  | .securityPolicy => inferInstanceAs (DecidableEq NamespacedName)
  | .envoyExtensionPolicy => inferInstanceAs (DecidableEq NamespacedName)
  | .backend => inferInstanceAs (DecidableEq NamespacedName)
  | .extensionServerPolicy => inferInstanceAs (DecidableEq NamespacedNameAndGVK)

/-- Whether the runner guards the status `Store` with the
`reflect.ValueOf(status).IsZero()` check ("Skip updating status for
policies with empty status"): true for the policy and backend kinds,
false for Gateway and the five route kinds, whose statuses are stored
unconditionally. -/
def Kind.checksZero : Kind → Bool
  | .gateway => false
  | .httpRoute => false
  | .grpcRoute => false
  | .tlsRoute => false
  | .tcpRoute => false
  | .udpRoute => false
  | .backendTLSPolicy => true
  | .clientTrafficPolicy => true
  | .backendTrafficPolicy => true
  | .securityPolicy => true
  | .envoyExtensionPolicy => true
  | .backend => true
  | .extensionServerPolicy => true

/-- `gatewayapi.TranslateResult` as consumed by the runner: the two IR
maps keyed by gateway identity, and, per status-bearing kind, the list of
resources assigned in this round, each as (status key, status value).
`statusResources .gateway` stands for the Go field `Gateways`,
`statusResources .httpRoute` for `HTTPRoutes`, and so on. -/
structure TranslationResult where
  infraIR : SMap String IRVal
  xdsIR : SMap String IRVal
  statusResources : (k : Kind) → List (k.KeyOf × Nat)

/-- One resource bundle of the snapshot together with the output of
`t.Translate(resources)` on it: the (possibly partial) result and the
returned non-fatal error, which the runner only logs. -/
structure Bundle where
  result : TranslationResult
  translateErr : Option String

/-- The downstream stores owned by the runner: the two IR planes and the
thirteen status stores of `ProviderResources`. -/
structure RState where
  infraIR : SMap String IRVal
  xdsIR : SMap String IRVal
  statuses : (k : Kind) → SMap k.KeyOf Nat

/-- A validation error sent on the error channel, tagged by plane
and offending IR key. -/
inductive Err where
  | infraInvalid (key : String)
  | xdsInvalid (key : String)
deriving DecidableEq, Repr

/-- The in-flight bookkeeping of one value-event reconciliation: the
stores as mutated so far, the per-kind `statusesToDelete` candidate sets,
the `newIRKeys` accumulator, the errors sent on `errChan`, and the
logged translation errors. -/
structure GenState where
  infraIR : SMap String IRVal
  xdsIR : SMap String IRVal
  statuses : (k : Kind) → SMap k.KeyOf Nat
  td : (k : Kind) → List k.KeyOf
  newIRKeys : List String
  errs : List Err
  log : List String

/-- `getAllStatuses`: snapshot the key universe of every status store
into the per-kind candidate-for-deletion sets (the Go code inserts the
keys of `LoadAll()` into a `map[key]bool`, hence the dedup). -/
def getAllStatuses (s : RState) : (k : Kind) → List k.KeyOf :=
  fun k => (keysOf (s.statuses k)).dedup

/-- The per-kind status loop body of `subscribeAndTranslate`, shared by
all thirteen kinds: for each resource in the translation result, store
its status (guarded by the `IsZero` check when `checkZero` is set) and
unconditionally remove its key from the candidate-for-deletion set. -/
def processKindStatuses [DecidableEq κ] (checkZero : Bool)
    (rs : List (κ × Nat)) (acc : SMap κ Nat × List κ) : SMap κ Nat × List κ :=
  rs.foldl
    (fun a r =>
      (if checkZero = true ∧ r.2 = 0 then a.1 else storeKV a.1 r.1 r.2,
       a.2.filter (fun x => decide (x ≠ r.1))))
    acc

/-- The InfraIR publication loop of one bundle: validate each entry; on
failure send one error on the channel, on success `Store` it and append
its key to `newIRKeys`. The accumulator is (InfraIR plane, newIRKeys,
errors so far). -/
def publishInfraIR (entries : List (String × IRVal))
    (acc : SMap String IRVal × List String × List Err) :
    SMap String IRVal × List String × List Err :=
  entries.foldl
    (fun a e =>
      if e.2.valid then (storeKV a.1 e.1 e.2, a.2.1 ++ [e.1], a.2.2)
      else (a.1, a.2.1, a.2.2 ++ [Err.infraInvalid e.1]))
    acc

/-- The XdsIR publication loop of one bundle: validate each entry; on
failure send one error, on success `Store` it (no key accumulation). -/
def publishXdsIR (entries : List (String × IRVal))
    (acc : SMap String IRVal × List Err) : SMap String IRVal × List Err :=
  entries.foldl
    (fun a e =>
      if e.2.valid then (storeKV a.1 e.1 e.2, a.2)
      else (a.1, a.2 ++ [Err.xdsInvalid e.1]))
    acc

/-- The body of `subscribeAndTranslate`'s bundle loop for one bundle:
log the Translate error if any, publish the InfraIR then XdsIR entries,
then run the thirteen per-kind status loops. -/
def processBundle (gs : GenState) (b : Bundle) : GenState :=
  let p := publishInfraIR b.result.infraIR (gs.infraIR, gs.newIRKeys, gs.errs)
  let q := publishXdsIR b.result.xdsIR (gs.xdsIR, p.2.2)
  { infraIR := p.1
    xdsIR := q.1
    statuses := fun k =>
      (processKindStatuses k.checksZero (b.result.statusResources k)
        (gs.statuses k, gs.td k)).1
    td := fun k =>
      (processKindStatuses k.checksZero (b.result.statusResources k)
        (gs.statuses k, gs.td k)).2
    newIRKeys := p.2.1
    errs := q.2
    log := gs.log ++ b.translateErr.toList }

/-- `getIRKeysToDelete`: the stale-key diff. `sets.NewString` dedups each
input, `Difference` keeps the current keys absent from the new keys, and
`List()` returns them sorted in increasing string order. -/
def getIRKeysToDelete (curKeys newKeys : List String) : List String :=
  ((curKeys.dedup.filter (fun k => decide (k ∉ newKeys))).insertionSort (· ≤ ·))

/-- `deleteStatusKeys`: delete every key still remaining in each kind's
candidate-for-deletion set from that kind's status store. -/
def deleteStatusKeys (td : (k : Kind) → List k.KeyOf)
    (st : (k : Kind) → SMap k.KeyOf Nat) : (k : Kind) → SMap k.KeyOf Nat :=
  fun k => (td k).foldl deleteKV (st k)

/-- Observable outcome of processing one event: the final stores plus a
trace of the run's bookkeeping (the `newIRKeys` accumulator, the IR keys
deleted by the cleanup phase, the status keys deleted per kind, the two
IR planes as they stood after the bundle loop and before cleanup, the
errors sent on `errChan`, and the logged translation errors). -/
structure GenTrace where
  state : RState
  newIRKeys : List String
  delKeys : List String
  statusDelKeys : (k : Kind) → List k.KeyOf
  midInfraIR : SMap String IRVal
  midXdsIR : SMap String IRVal
  errs : List Err
  log : List String

/-- The value-event path of `subscribeAndTranslate`: snapshot the current
InfraIR keys and all status keys, run the bundle loop, then delete the
stale IR keys from both planes and the remaining status keys. -/
def handleValue (s : RState) (bundles : List Bundle) : GenTrace :=
  let curIRKeys := keysOf s.infraIR
  let gs := bundles.foldl processBundle
    ⟨s.infraIR, s.xdsIR, s.statuses, getAllStatuses s, [], [], []⟩
  let delKeys := getIRKeysToDelete curIRKeys gs.newIRKeys
  { state :=
      { infraIR := delKeys.foldl deleteKV gs.infraIR
        xdsIR := delKeys.foldl deleteKV gs.xdsIR
        statuses := deleteStatusKeys gs.td gs.statuses }
    newIRKeys := gs.newIRKeys
    delKeys := delKeys
    statusDelKeys := gs.td
    midInfraIR := gs.infraIR
    midXdsIR := gs.xdsIR
    errs := gs.errs
    log := gs.log }

/-- `deleteAllIRKeys`: for every key of the InfraIR plane, delete it from
both the InfraIR and the XdsIR plane. -/
def deleteAllIRKeys (s : RState) : SMap String IRVal × SMap String IRVal :=
  (keysOf s.infraIR).foldl
    (fun acc k => (deleteKV acc.1 k, deleteKV acc.2 k))
    (s.infraIR, s.xdsIR)

/-- `deleteAllStatusKeys`: for every status store, delete every key it
currently holds. -/
def deleteAllStatusKeys (st : (k : Kind) → SMap k.KeyOf Nat) :
    (k : Kind) → SMap k.KeyOf Nat :=
  fun k => (keysOf (st k)).foldl deleteKV (st k)

/-- One event of the subscription:
`message.Update[string, *gatewayapi.ControllerResources]`, with the
single controller-identity key elided and the value given as the list of
resource bundles together with their translation outputs. -/
structure Update where
  delete : Bool
  value : Option (List Bundle)

/-- The per-event handler of `subscribeAndTranslate`: on a delete event
or a nil value, tear down all IR keys and all status keys; otherwise run
the value-event reconciliation. -/
def handleEvent (s : RState) (u : Update) : GenTrace :=
  if u.delete || u.value.isNone then
    let ir := deleteAllIRKeys s
    { state :=
        { infraIR := ir.1
          xdsIR := ir.2
          statuses := deleteAllStatusKeys s.statuses }
      newIRKeys := []
      delKeys := []
      statusDelKeys := fun _ => []
      midInfraIR := s.infraIR
      midXdsIR := s.xdsIR
      errs := []
      log := [] }
  else handleValue s (u.value.getD [])

/-! ### Derived gather functions over a snapshot's bundles -/

/-- The validated InfraIR entries of one bundle. -/
def bundleValidInfra (b : Bundle) : List (String × IRVal) :=
  b.result.infraIR.filter (fun e => e.2.valid)

/-- The validated XdsIR entries of one bundle. -/
def bundleValidXds (b : Bundle) : List (String × IRVal) :=
  b.result.xdsIR.filter (fun e => e.2.valid)

/-- All validated InfraIR entries of a snapshot, in processing order. -/
def validInfraEntries (bs : List Bundle) : List (String × IRVal) :=
  bs.flatMap bundleValidInfra

/-- All validated XdsIR entries of a snapshot, in processing order. -/
def validXdsEntries (bs : List Bundle) : List (String × IRVal) :=
  bs.flatMap bundleValidXds

/-- The keys of all validated InfraIR entries of a snapshot. -/
def validInfraKeys (bs : List Bundle) : List String :=
  (validInfraEntries bs).map Prod.fst

/-- The keys of all validated XdsIR entries of a snapshot. -/
def validXdsKeys (bs : List Bundle) : List String :=
  (validXdsEntries bs).map Prod.fst

/-- The validation errors of one bundle, in emission order (InfraIR
entries first, then XdsIR entries). -/
def bundleErrs (b : Bundle) : List Err :=
  (b.result.infraIR.filter (fun e => !e.2.valid)).map (fun e => Err.infraInvalid e.1)
    ++ (b.result.xdsIR.filter (fun e => !e.2.valid)).map (fun e => Err.xdsInvalid e.1)

/-- All validation errors of a snapshot, in emission order. -/
def errsOf (bs : List Bundle) : List Err :=
  bs.flatMap bundleErrs

/-- All logged translation errors of a snapshot, in order. -/
def logsOf (bs : List Bundle) : List String :=
  bs.flatMap (fun b => b.translateErr.toList)

/-- All status resources of a snapshot for one kind, in processing
order. -/
def kindResources (bs : List Bundle) (k : Kind) : List (k.KeyOf × Nat) :=
  bs.flatMap (fun b => b.result.statusResources k)

/-- The status keys appearing in a snapshot's translation results for one
kind. -/
def kindKeys (bs : List Bundle) (k : Kind) : List k.KeyOf :=
  (kindResources bs k).map Prod.fst

/-- The value the per-kind status loops leave under key `x`, folded left
over the resources of that kind: a resource overwrites the accumulator
iff it has key `x` and is actually stored (its status is non-zero, or the
kind does not check for zero). -/
def lastWrite [DecidableEq κ] (checkZero : Bool) (x : κ)
    (rs : List (κ × Nat)) (a : Option Nat) : Option Nat :=
  rs.foldl
    (fun acc r =>
      if r.1 = x ∧ ¬(checkZero = true ∧ r.2 = 0) then some r.2 else acc)
    a

/-- A bundle with its Translate error discarded (used to state that the
error is non-fatal). -/
def clearTranslateErr (b : Bundle) : Bundle :=
  { b with translateErr := none }

/-- Store a list of entries into an IR plane, in order. -/
def storeEntries (es : List (String × IRVal)) (m : SMap String IRVal) :
    SMap String IRVal :=
  es.foldl (fun acc e => storeKV acc e.1 e.2) m

/-! ### Concrete fixtures used by witnesses and counterexamples -/

/-- A sample status key. -/
def nn0 : NamespacedName := ⟨"default", "r"⟩

/-- The state with all stores empty. -/
def emptyState : RState :=
  { infraIR := [], xdsIR := [], statuses := fun _ => [] }

/-- An IR entry whose `Validate()` succeeds. -/
def irValid : IRVal := ⟨true, 0⟩

/-- An IR entry whose `Validate()` fails. -/
def irInvalid : IRVal := ⟨false, 0⟩

/-- A bundle whose translation yields key `k` in both planes, with the
InfraIR entry failing validation and the XdsIR entry passing it. -/
def mismatchBundle : Bundle :=
  { result :=
      { infraIR := [("k", irInvalid)]
        xdsIR := [("k", irValid)]
        statusResources := fun _ => [] }
    translateErr := none }

/-- A bundle whose translation yields key `k` valid in both planes. -/
def matchBundle : Bundle :=
  { result :=
      { infraIR := [("k", irValid)]
        xdsIR := [("k", irValid)]
        statusResources := fun _ => [] }
    translateErr := none }

/-- A state whose two IR planes both hold exactly key `k`. -/
def syncedState : RState :=
  { infraIR := [("k", irValid)], xdsIR := [("k", irValid)], statuses := fun _ => [] }

/-- A state holding key `k` only in the XdsIR plane. -/
def xdsOnlyState : RState :=
  { infraIR := [], xdsIR := [("k", irValid)], statuses := fun _ => [] }

/-- A state whose Gateway status store holds `nn0` with status `5`. -/
def gatewayStatusState : RState :=
  { infraIR := []
    xdsIR := []
    statuses := fun k =>
      match k with
      | .gateway => [(nn0, 5)]
      | _ => [] }

/-- A bundle whose translation contains the Gateway `nn0` with an empty
(zero) status. -/
def gatewayZeroBundle : Bundle :=
  { result :=
      { infraIR := []
        xdsIR := []
        statusResources := fun k =>
          match k with
          | .gateway => [(nn0, 0)]
          | _ => [] }
    translateErr := none }

/-- A state whose SecurityPolicy status store holds `nn0` with status `5`. -/
def policyStatusState : RState :=
  { infraIR := []
    xdsIR := []
    statuses := fun k =>
      match k with
      | .securityPolicy => [(nn0, 5)]
      | _ => [] }

/-- A bundle whose translation contains the SecurityPolicy `nn0` with an
empty (zero) status. -/
def policyZeroBundle : Bundle :=
  { result :=
      { infraIR := []
        xdsIR := []
        statusResources := fun k =>
          match k with
          | .securityPolicy => [(nn0, 0)]
          | _ => [] }
    translateErr := none }

/-- A bundle whose translation returns an error and an empty result. -/
def errBundle : Bundle :=
  { result := { infraIR := [], xdsIR := [], statusResources := fun _ => [] }
    translateErr := some "boom" }

/-! ### Store-operation lemmas -/

theorem mem_keysOf {m : SMap κ ν} {a : κ} :
    a ∈ keysOf m ↔ ∃ v, (a, v) ∈ m := by
  simp only [keysOf, List.mem_map]
  constructor
  · rintro ⟨⟨k, v⟩, hm, rfl⟩
    exact ⟨v, hm⟩
  · rintro ⟨v, hm⟩
    exact ⟨(a, v), hm, rfl⟩

theorem mem_keysOf_storeKV [DecidableEq κ] {m : SMap κ ν} {k a : κ} {v : ν} :
    a ∈ keysOf (storeKV m k v) ↔ a = k ∨ a ∈ keysOf m := by
  simp only [storeKV, keysOf, List.map_cons, List.mem_cons, List.mem_map,
    List.mem_filter, decide_eq_true_eq]
  constructor
  · rintro (rfl | ⟨p, ⟨hp, _⟩, rfl⟩)
    · exact Or.inl rfl
    · exact Or.inr ⟨p, hp, rfl⟩
  · rintro (rfl | ⟨p, hp, rfl⟩)
    · exact Or.inl rfl
    · by_cases h : p.1 = k
      · exact Or.inl h
      · exact Or.inr ⟨p, ⟨hp, h⟩, rfl⟩

theorem mem_keysOf_deleteKV [DecidableEq κ] {m : SMap κ ν} {k a : κ} :
    a ∈ keysOf (deleteKV m k) ↔ a ∈ keysOf m ∧ a ≠ k := by
  simp only [deleteKV, keysOf, List.mem_map, List.mem_filter, decide_eq_true_eq]
  constructor
  · rintro ⟨p, ⟨hp, hne⟩, rfl⟩
    exact ⟨⟨p, hp, rfl⟩, hne⟩
  · rintro ⟨⟨p, hp, rfl⟩, hne⟩
    exact ⟨p, ⟨hp, hne⟩, rfl⟩

theorem mem_keysOf_foldl_deleteKV [DecidableEq κ] {ks : List κ} {m : SMap κ ν} {a : κ} :
    a ∈ keysOf (ks.foldl deleteKV m) ↔ a ∈ keysOf m ∧ a ∉ ks := by
  induction ks generalizing m with
  | nil => simp
  | cons k ks ih =>
    rw [List.foldl_cons, ih, mem_keysOf_deleteKV, List.mem_cons]
    tauto

theorem foldl_deleteKV_keysOf_self [DecidableEq κ] {m : SMap κ ν} :
    (keysOf m).foldl deleteKV m = [] := by
  rw [List.eq_nil_iff_forall_not_mem]
  intro p hp
  have : p.1 ∈ keysOf ((keysOf m).foldl deleteKV m) := mem_keysOf.2 ⟨p.2, hp⟩
  rw [mem_keysOf_foldl_deleteKV] at this
  exact this.2 this.1

theorem storePred_eq [DecidableEq κ] {k a : κ} (h : a ≠ k) :
    (fun (x : κ × ν) => decide (decide (x.1 ≠ k) = true ∧ decide (x.1 = a) = true))
      = (fun (x : κ × ν) => decide (x.1 = a)) := by
  funext x
  by_cases hx : x.1 = a <;> simp [hx, h]

theorem lookupKV_storeKV [DecidableEq κ] {m : SMap κ ν} {k a : κ} {v : ν} :
    lookupKV (storeKV m k v) a = if a = k then some v else lookupKV m a := by
  by_cases h : a = k
  · subst h
    simp [lookupKV, storeKV, List.find?_cons]
  · have hka : (decide (k = a)) = false := by simp [Ne.symm h]
    simp only [lookupKV, storeKV, if_neg h, List.find?_cons, hka]
    simp only [List.find?_filter, Function.comp]
    rw [storePred_eq h]

theorem lookupKV_deleteKV [DecidableEq κ] {m : SMap κ ν} {k a : κ} :
    lookupKV (deleteKV m k) a = if a = k then none else lookupKV m a := by
  by_cases h : a = k
  · subst h
    rw [if_pos rfl]
    rw [Option.eq_none_iff_forall_not_mem]
    intro v hv
    simp only [lookupKV, Option.mem_def, Option.map_eq_some'] at hv
    obtain ⟨p, hp, rfl⟩ := hv
    have := List.find?_some hp
    have hmem := List.mem_of_find?_eq_some hp
    simp only [deleteKV, List.mem_filter, decide_eq_true_eq] at hmem
    simp only [decide_eq_true_eq] at this
    exact hmem.2 (this ▸ rfl)
  · rw [if_neg h]
    simp only [lookupKV, deleteKV, List.find?_filter, Function.comp]
    rw [storePred_eq h]

theorem lookupKV_foldl_deleteKV [DecidableEq κ] {ks : List κ} {m : SMap κ ν} {a : κ} :
    lookupKV (ks.foldl deleteKV m) a = if a ∈ ks then none else lookupKV m a := by
  induction ks generalizing m with
  | nil => simp
  | cons k ks ih =>
    rw [List.foldl_cons, ih, lookupKV_deleteKV]
    by_cases h1 : a ∈ ks <;> by_cases h2 : a = k <;>
      simp [List.mem_cons, h1, h2]

theorem lookupKV_eq_none_iff [DecidableEq κ] {m : SMap κ ν} {a : κ} :
    lookupKV m a = none ↔ a ∉ keysOf m := by
  simp only [lookupKV, Option.map_eq_none', List.find?_eq_none, decide_eq_true_eq,
    mem_keysOf]
  constructor
  · rintro h ⟨v, hv⟩
    exact h (a, v) hv rfl
  · rintro h p hp rfl
    exact h ⟨p.2, hp⟩

theorem mem_storeKV [DecidableEq κ] {m : SMap κ ν} {k : κ} {v : ν} {p : κ × ν} :
    p ∈ storeKV m k v → p = (k, v) ∨ p ∈ m := by
  simp only [storeKV, List.mem_cons, List.mem_filter]
  rintro (rfl | ⟨hp, _⟩)
  · exact Or.inl rfl
  · exact Or.inr hp

/-! ### Lemmas about the publication and status loops -/

theorem storeEntries_cons {e : String × IRVal} {es : List (String × IRVal)}
    {m : SMap String IRVal} :
    storeEntries (e :: es) m = storeEntries es (storeKV m e.1 e.2) := rfl

theorem storeEntries_append {es es' : List (String × IRVal)} {m : SMap String IRVal} :
    storeEntries (es ++ es') m = storeEntries es' (storeEntries es m) :=
  List.foldl_append ..

theorem mem_keysOf_storeEntries {es : List (String × IRVal)} {m : SMap String IRVal}
    {a : String} :
    a ∈ keysOf (storeEntries es m) ↔ a ∈ es.map Prod.fst ∨ a ∈ keysOf m := by
  induction es generalizing m with
  | nil => simp [storeEntries]
  | cons e es ih =>
    rw [storeEntries_cons, ih]
    simp only [List.map_cons, List.mem_cons, mem_keysOf_storeKV]
    tauto

theorem mem_storeEntries {es : List (String × IRVal)} {m : SMap String IRVal}
    {p : String × IRVal} :
    p ∈ storeEntries es m → p ∈ es ∨ p ∈ m := by
  induction es generalizing m with
  | nil => exact fun h => Or.inr h
  | cons e es ih =>
    intro h
    rcases ih h with h1 | h2
    · exact Or.inl (List.mem_cons_of_mem _ h1)
    · rcases mem_storeKV h2 with rfl | h3
      · exact Or.inl (List.mem_cons_self _ _)
      · exact Or.inr h3

theorem publishInfraIR_cons {e : String × IRVal} {es : List (String × IRVal)}
    {acc : SMap String IRVal × List String × List Err} :
    publishInfraIR (e :: es) acc
      = publishInfraIR es
          (if e.2.valid then (storeKV acc.1 e.1 e.2, acc.2.1 ++ [e.1], acc.2.2)
           else (acc.1, acc.2.1, acc.2.2 ++ [Err.infraInvalid e.1])) := rfl

theorem publishInfraIR_eq (es : List (String × IRVal)) (m : SMap String IRVal)
    (nk : List String) (er : List Err) :
    publishInfraIR es (m, nk, er)
      = (storeEntries (es.filter (fun e => e.2.valid)) m,
         nk ++ (es.filter (fun e => e.2.valid)).map Prod.fst,
         er ++ (es.filter (fun e => !e.2.valid)).map (fun e => Err.infraInvalid e.1)) := by
  induction es generalizing m nk er with
  | nil => simp [publishInfraIR, storeEntries]
  | cons e es ih =>
    rw [publishInfraIR_cons]
    by_cases hv : e.2.valid
    · rw [if_pos hv, ih]
      simp [List.filter_cons, hv, storeEntries_cons]
    · rw [if_neg hv, ih]
      simp only [Bool.not_eq_true] at hv
      simp [List.filter_cons, hv]

theorem publishXdsIR_cons {e : String × IRVal} {es : List (String × IRVal)}
    {acc : SMap String IRVal × List Err} :
    publishXdsIR (e :: es) acc
      = publishXdsIR es
          (if e.2.valid then (storeKV acc.1 e.1 e.2, acc.2)
           else (acc.1, acc.2 ++ [Err.xdsInvalid e.1])) := rfl

theorem publishXdsIR_eq (es : List (String × IRVal)) (m : SMap String IRVal)
    (er : List Err) :
    publishXdsIR es (m, er)
      = (storeEntries (es.filter (fun e => e.2.valid)) m,
         er ++ (es.filter (fun e => !e.2.valid)).map (fun e => Err.xdsInvalid e.1)) := by
  induction es generalizing m er with
  | nil => simp [publishXdsIR, storeEntries]
  | cons e es ih =>
    rw [publishXdsIR_cons]
    by_cases hv : e.2.valid
    · rw [if_pos hv, ih]
      simp [List.filter_cons, hv, storeEntries_cons]
    · rw [if_neg hv, ih]
      simp only [Bool.not_eq_true] at hv
      simp [List.filter_cons, hv]

theorem processKindStatuses_cons [DecidableEq κ] {cz : Bool} {r : κ × Nat}
    {rs : List (κ × Nat)} {acc : SMap κ Nat × List κ} :
    processKindStatuses cz (r :: rs) acc
      = processKindStatuses cz rs
          (if cz = true ∧ r.2 = 0 then acc.1 else storeKV acc.1 r.1 r.2,
           acc.2.filter (fun x => decide (x ≠ r.1))) := rfl

theorem processKindStatuses_append [DecidableEq κ] {cz : Bool}
    {rs rs' : List (κ × Nat)} {acc : SMap κ Nat × List κ} :
    processKindStatuses cz (rs ++ rs') acc
      = processKindStatuses cz rs' (processKindStatuses cz rs acc) :=
  List.foldl_append ..

theorem mem_td_processKindStatuses [DecidableEq κ] {cz : Bool}
    {rs : List (κ × Nat)} {acc : SMap κ Nat × List κ} {x : κ} :
    x ∈ (processKindStatuses cz rs acc).2 ↔ x ∈ acc.2 ∧ x ∉ rs.map Prod.fst := by
  induction rs generalizing acc with
  | nil => simp [processKindStatuses]
  | cons r rs ih =>
    rw [processKindStatuses_cons, ih]
    simp only [List.mem_filter, List.map_cons, List.mem_cons, decide_eq_true_eq]
    tauto

theorem lastWrite_cons [DecidableEq κ] {cz : Bool} {x : κ} {r : κ × Nat}
    {rs : List (κ × Nat)} {a : Option Nat} :
    lastWrite cz x (r :: rs) a
      = lastWrite cz x rs
          (if r.1 = x ∧ ¬(cz = true ∧ r.2 = 0) then some r.2 else a) := rfl

theorem lastWrite_or [DecidableEq κ] {cz : Bool} {x : κ} {rs : List (κ × Nat)}
    {a : Option Nat} :
    lastWrite cz x rs a = (lastWrite cz x rs none).or a := by
  induction rs generalizing a with
  | nil => cases a <;> rfl
  | cons r rs ih =>
    rw [lastWrite_cons, lastWrite_cons]
    by_cases hc : r.1 = x ∧ ¬(cz = true ∧ r.2 = 0)
    · rw [if_pos hc, if_pos hc, ih]
      rw [Option.or_assoc]
      rfl
    · rw [if_neg hc, if_neg hc]
      exact ih

theorem lookup_processKindStatuses [DecidableEq κ] {cz : Bool}
    {rs : List (κ × Nat)} {acc : SMap κ Nat × List κ} {x : κ} :
    lookupKV (processKindStatuses cz rs acc).1 x
      = (lastWrite cz x rs none).or (lookupKV acc.1 x) := by
  induction rs generalizing acc with
  | nil => rfl
  | cons r rs ih =>
    rw [processKindStatuses_cons, ih, lastWrite_cons]
    conv_rhs => rw [lastWrite_or]
    rw [Option.or_assoc]
    congr 1
    by_cases hz : cz = true ∧ r.2 = 0
    · rw [if_pos hz]
      have hc : ¬(r.1 = x ∧ ¬(cz = true ∧ r.2 = 0)) := by tauto
      rw [if_neg hc]
      rfl
    · rw [if_neg hz, lookupKV_storeKV]
      by_cases hx : x = r.1
      · have hc : r.1 = x ∧ ¬(cz = true ∧ r.2 = 0) := ⟨hx.symm, hz⟩
        rw [if_pos hx, if_pos hc]
        rfl
      · have hc : ¬(r.1 = x ∧ ¬(cz = true ∧ r.2 = 0)) := by
          rintro ⟨h1, _⟩
          exact hx h1.symm
        rw [if_neg hx, if_neg hc]
        rfl

/-! ### Projections of the bundle loop -/

theorem processBundle_infraIR (gs : GenState) (b : Bundle) :
    (processBundle gs b).infraIR = storeEntries (bundleValidInfra b) gs.infraIR := by
  simp only [processBundle, publishInfraIR_eq, bundleValidInfra]

theorem processBundle_newIRKeys (gs : GenState) (b : Bundle) :
    (processBundle gs b).newIRKeys
      = gs.newIRKeys ++ (bundleValidInfra b).map Prod.fst := by
  simp only [processBundle, publishInfraIR_eq, bundleValidInfra]

theorem processBundle_xdsIR (gs : GenState) (b : Bundle) :
    (processBundle gs b).xdsIR = storeEntries (bundleValidXds b) gs.xdsIR := by
  simp only [processBundle, publishInfraIR_eq, publishXdsIR_eq, bundleValidXds]

theorem processBundle_errs (gs : GenState) (b : Bundle) :
    (processBundle gs b).errs = gs.errs ++ bundleErrs b := by
  simp only [processBundle, publishInfraIR_eq, publishXdsIR_eq, bundleErrs,
    List.append_assoc]

theorem processBundle_log (gs : GenState) (b : Bundle) :
    (processBundle gs b).log = gs.log ++ b.translateErr.toList := rfl

theorem processBundle_statuses (gs : GenState) (b : Bundle) (k : Kind) :
    (processBundle gs b).statuses k
      = (processKindStatuses k.checksZero (b.result.statusResources k)
          (gs.statuses k, gs.td k)).1 := rfl

theorem processBundle_td (gs : GenState) (b : Bundle) (k : Kind) :
    (processBundle gs b).td k
      = (processKindStatuses k.checksZero (b.result.statusResources k)
          (gs.statuses k, gs.td k)).2 := rfl

theorem foldl_processBundle_newIRKeys (bs : List Bundle) (gs : GenState) :
    (bs.foldl processBundle gs).newIRKeys = gs.newIRKeys ++ validInfraKeys bs := by
  induction bs generalizing gs with
  | nil => simp [validInfraKeys, validInfraEntries]
  | cons b bs ih =>
    rw [List.foldl_cons, ih, processBundle_newIRKeys]
    simp [validInfraKeys, validInfraEntries]

theorem foldl_processBundle_infraIR (bs : List Bundle) (gs : GenState) :
    (bs.foldl processBundle gs).infraIR
      = storeEntries (validInfraEntries bs) gs.infraIR := by
  induction bs generalizing gs with
  | nil => simp [validInfraEntries, storeEntries]
  | cons b bs ih =>
    rw [List.foldl_cons, ih, processBundle_infraIR]
    rw [show validInfraEntries (b :: bs) = bundleValidInfra b ++ validInfraEntries bs
      from rfl]
    rw [storeEntries_append]

theorem foldl_processBundle_xdsIR (bs : List Bundle) (gs : GenState) :
    (bs.foldl processBundle gs).xdsIR
      = storeEntries (validXdsEntries bs) gs.xdsIR := by
  induction bs generalizing gs with
  | nil => simp [validXdsEntries, storeEntries]
  | cons b bs ih =>
    rw [List.foldl_cons, ih, processBundle_xdsIR]
    rw [show validXdsEntries (b :: bs) = bundleValidXds b ++ validXdsEntries bs
      from rfl]
    rw [storeEntries_append]

theorem foldl_processBundle_errs (bs : List Bundle) (gs : GenState) :
    (bs.foldl processBundle gs).errs = gs.errs ++ errsOf bs := by
  induction bs generalizing gs with
  | nil => simp [errsOf]
  | cons b bs ih =>
    rw [List.foldl_cons, ih, processBundle_errs]
    simp [errsOf]

theorem foldl_processBundle_log (bs : List Bundle) (gs : GenState) :
    (bs.foldl processBundle gs).log = gs.log ++ logsOf bs := by
  induction bs generalizing gs with
  | nil => simp [logsOf]
  | cons b bs ih =>
    rw [List.foldl_cons, ih, processBundle_log]
    simp [logsOf]

theorem foldl_processBundle_statuses_td (bs : List Bundle) (gs : GenState) (k : Kind) :
    (bs.foldl processBundle gs).statuses k
        = (processKindStatuses k.checksZero (kindResources bs k)
            (gs.statuses k, gs.td k)).1
      ∧ (bs.foldl processBundle gs).td k
        = (processKindStatuses k.checksZero (kindResources bs k)
            (gs.statuses k, gs.td k)).2 := by
  induction bs generalizing gs with
  | nil => exact ⟨rfl, rfl⟩
  | cons b bs ih =>
    rw [List.foldl_cons]
    obtain ⟨h1, h2⟩ := ih (processBundle gs b)
    rw [h1, h2, processBundle_statuses, processBundle_td]
    rw [show kindResources (b :: bs) k
        = b.result.statusResources k ++ kindResources bs k from rfl]
    rw [processKindStatuses_append]
    exact ⟨rfl, rfl⟩

/-! ### Characterizations of one value-event reconciliation -/

theorem mem_getIRKeysToDelete {cur new : List String} {x : String} :
    x ∈ getIRKeysToDelete cur new ↔ x ∈ cur ∧ x ∉ new := by
  simp [getIRKeysToDelete, List.mem_insertionSort, List.mem_filter, List.mem_dedup]

theorem handleValue_newIRKeys (s : RState) (bs : List Bundle) :
    (handleValue s bs).newIRKeys = validInfraKeys bs := by
  simp only [handleValue, foldl_processBundle_newIRKeys, List.nil_append]

theorem handleValue_errs (s : RState) (bs : List Bundle) :
    (handleValue s bs).errs = errsOf bs := by
  simp only [handleValue, foldl_processBundle_errs, List.nil_append]

theorem handleValue_log (s : RState) (bs : List Bundle) :
    (handleValue s bs).log = logsOf bs := by
  simp only [handleValue, foldl_processBundle_log, List.nil_append]

theorem handleValue_midInfraIR (s : RState) (bs : List Bundle) :
    (handleValue s bs).midInfraIR = storeEntries (validInfraEntries bs) s.infraIR := by
  simp only [handleValue, foldl_processBundle_infraIR]

theorem handleValue_midXdsIR (s : RState) (bs : List Bundle) :
    (handleValue s bs).midXdsIR = storeEntries (validXdsEntries bs) s.xdsIR := by
  simp only [handleValue, foldl_processBundle_xdsIR]

theorem handleValue_delKeys (s : RState) (bs : List Bundle) :
    (handleValue s bs).delKeys
      = getIRKeysToDelete (keysOf s.infraIR) (validInfraKeys bs) := by
  simp only [handleValue, foldl_processBundle_newIRKeys, List.nil_append]

theorem mem_handleValue_delKeys {s : RState} {bs : List Bundle} {x : String} :
    x ∈ (handleValue s bs).delKeys
      ↔ x ∈ keysOf s.infraIR ∧ x ∉ validInfraKeys bs := by
  rw [handleValue_delKeys, mem_getIRKeysToDelete]

theorem handleValue_statusDelKeys (s : RState) (bs : List Bundle) (k : Kind) :
    (handleValue s bs).statusDelKeys k
      = (processKindStatuses k.checksZero (kindResources bs k)
          (s.statuses k, getAllStatuses s k)).2 := by
  simp only [handleValue]
  exact (foldl_processBundle_statuses_td bs _ k).2

theorem mem_handleValue_statusDelKeys {s : RState} {bs : List Bundle} {k : Kind}
    {x : k.KeyOf} :
    x ∈ (handleValue s bs).statusDelKeys k
      ↔ x ∈ keysOf (s.statuses k) ∧ x ∉ kindKeys bs k := by
  rw [handleValue_statusDelKeys, mem_td_processKindStatuses]
  simp only [getAllStatuses, List.mem_dedup, kindKeys]

theorem mem_keysOf_handleValue_infraIR {s : RState} {bs : List Bundle} {x : String} :
    x ∈ keysOf (handleValue s bs).state.infraIR ↔ x ∈ validInfraKeys bs := by
  have h1 : (handleValue s bs).state.infraIR
      = (handleValue s bs).delKeys.foldl deleteKV (handleValue s bs).midInfraIR := by
    simp only [handleValue]
  rw [h1, mem_keysOf_foldl_deleteKV, handleValue_midInfraIR, mem_keysOf_storeEntries,
    mem_handleValue_delKeys]
  have : ((validInfraEntries bs).map Prod.fst) = validInfraKeys bs := rfl
  rw [this]
  tauto

theorem mem_keysOf_handleValue_xdsIR {s : RState} {bs : List Bundle} {x : String} :
    x ∈ keysOf (handleValue s bs).state.xdsIR
      ↔ (x ∈ validXdsKeys bs ∨ x ∈ keysOf s.xdsIR)
          ∧ ¬(x ∈ keysOf s.infraIR ∧ x ∉ validInfraKeys bs) := by
  have h1 : (handleValue s bs).state.xdsIR
      = (handleValue s bs).delKeys.foldl deleteKV (handleValue s bs).midXdsIR := by
    simp only [handleValue]
  rw [h1, mem_keysOf_foldl_deleteKV, handleValue_midXdsIR, mem_keysOf_storeEntries,
    mem_handleValue_delKeys]
  have : ((validXdsEntries bs).map Prod.fst) = validXdsKeys bs := rfl
  rw [this]

theorem handleValue_statuses (s : RState) (bs : List Bundle) (k : Kind) :
    (handleValue s bs).state.statuses k
      = ((handleValue s bs).statusDelKeys k).foldl deleteKV
          ((processKindStatuses k.checksZero (kindResources bs k)
            (s.statuses k, getAllStatuses s k)).1) := by
  simp only [handleValue, deleteStatusKeys]
  congr 1
  exact (foldl_processBundle_statuses_td bs _ k).1

theorem handleValue_status_lookup {s : RState} {bs : List Bundle} {k : Kind}
    {x : k.KeyOf} (hx : x ∈ kindKeys bs k) :
    lookupKV ((handleValue s bs).state.statuses k) x
      = (lastWrite k.checksZero x (kindResources bs k) none).or
          (lookupKV (s.statuses k) x) := by
  rw [handleValue_statuses, lookupKV_foldl_deleteKV]
  have hnot : x ∉ (handleValue s bs).statusDelKeys k := by
    rw [mem_handleValue_statusDelKeys]
    rintro ⟨_, h2⟩
    exact h2 hx
  rw [if_neg hnot, lookup_processKindStatuses]

theorem handleValue_status_deleted {s : RState} {bs : List Bundle} {k : Kind}
    {x : k.KeyOf} (hx : x ∈ (handleValue s bs).statusDelKeys k) :
    lookupKV ((handleValue s bs).state.statuses k) x = none := by
  rw [handleValue_statuses, lookupKV_foldl_deleteKV]
  rw [if_pos hx]

theorem handleValue_state_infraIR (s : RState) (bs : List Bundle) :
    (handleValue s bs).state.infraIR
      = (getIRKeysToDelete (keysOf s.infraIR) (validInfraKeys bs)).foldl deleteKV
          (storeEntries (validInfraEntries bs) s.infraIR) := by
  simp only [handleValue, foldl_processBundle_infraIR, foldl_processBundle_newIRKeys,
    List.nil_append]

theorem handleValue_state_xdsIR (s : RState) (bs : List Bundle) :
    (handleValue s bs).state.xdsIR
      = (getIRKeysToDelete (keysOf s.infraIR) (validInfraKeys bs)).foldl deleteKV
          (storeEntries (validXdsEntries bs) s.xdsIR) := by
  simp only [handleValue, foldl_processBundle_xdsIR, foldl_processBundle_newIRKeys,
    List.nil_append]

theorem handleValue_state_statuses (s : RState) (bs : List Bundle) (k : Kind) :
    (handleValue s bs).state.statuses k
      = ((processKindStatuses k.checksZero (kindResources bs k)
            (s.statuses k, getAllStatuses s k)).2).foldl deleteKV
          ((processKindStatuses k.checksZero (kindResources bs k)
            (s.statuses k, getAllStatuses s k)).1) := by
  rw [handleValue_statuses, handleValue_statusDelKeys]

theorem lastWrite_eq_of_no_write [DecidableEq κ] {cz : Bool} {x : κ}
    {rs : List (κ × Nat)} {a : Option Nat}
    (h : ∀ r ∈ rs, r.1 = x → cz = true ∧ r.2 = 0) :
    lastWrite cz x rs a = a := by
  induction rs generalizing a with
  | nil => rfl
  | cons r rs ih =>
    rw [lastWrite_cons]
    have hcond : ¬(r.1 = x ∧ ¬(cz = true ∧ r.2 = 0)) := by
      rintro ⟨h1, h2⟩
      exact h2 (h r (List.mem_cons_self ..) h1)
    rw [if_neg hcond]
    exact ih (fun r hr => h r (List.mem_cons_of_mem _ hr))

theorem valid_of_mem_validInfraEntries {bs : List Bundle} {p : String × IRVal}
    (hp : p ∈ validInfraEntries bs) : p.2.valid = true := by
  simp only [validInfraEntries, List.mem_flatMap, bundleValidInfra] at hp
  obtain ⟨b, _, hmem⟩ := hp
  exact (List.mem_filter.1 hmem).2

theorem valid_of_mem_validXdsEntries {bs : List Bundle} {p : String × IRVal}
    (hp : p ∈ validXdsEntries bs) : p.2.valid = true := by
  simp only [validXdsEntries, List.mem_flatMap, bundleValidXds] at hp
  obtain ⟨b, _, hmem⟩ := hp
  exact (List.mem_filter.1 hmem).2

/-! ### Lemmas about the teardown path -/

theorem foldl_pair_deleteKV {ν' : Type} [DecidableEq κ] (ks : List κ)
    (i : SMap κ ν) (x : SMap κ ν') :
    ks.foldl (fun acc k => (deleteKV acc.1 k, deleteKV acc.2 k)) (i, x)
      = (ks.foldl deleteKV i, ks.foldl deleteKV x) := by
  induction ks generalizing i x with
  | nil => rfl
  | cons k ks ih =>
    rw [List.foldl_cons, List.foldl_cons, List.foldl_cons]
    exact ih _ _

theorem deleteAllIRKeys_fst (s : RState) : (deleteAllIRKeys s).1 = [] := by
  rw [deleteAllIRKeys, foldl_pair_deleteKV]
  exact foldl_deleteKV_keysOf_self

theorem mem_keysOf_deleteAllIRKeys_snd {s : RState} {x : String} :
    x ∈ keysOf (deleteAllIRKeys s).2
      ↔ x ∈ keysOf s.xdsIR ∧ x ∉ keysOf s.infraIR := by
  rw [deleteAllIRKeys, foldl_pair_deleteKV]
  exact mem_keysOf_foldl_deleteKV

theorem deleteAllStatusKeys_eq (st : (k : Kind) → SMap k.KeyOf Nat) (k : Kind) :
    deleteAllStatusKeys st k = [] :=
  foldl_deleteKV_keysOf_self

/-! ### Invariance under discarding the Translate errors -/

theorem validInfraEntries_map_clear (bs : List Bundle) :
    validInfraEntries (bs.map clearTranslateErr) = validInfraEntries bs := by
  induction bs with
  | nil => rfl
  | cons b bs ih =>
    simp only [List.map_cons, validInfraEntries, List.flatMap_cons] at ih ⊢
    rw [ih]
    rfl

theorem validXdsEntries_map_clear (bs : List Bundle) :
    validXdsEntries (bs.map clearTranslateErr) = validXdsEntries bs := by
  induction bs with
  | nil => rfl
  | cons b bs ih =>
    simp only [List.map_cons, validXdsEntries, List.flatMap_cons] at ih ⊢
    rw [ih]
    rfl

theorem errsOf_map_clear (bs : List Bundle) :
    errsOf (bs.map clearTranslateErr) = errsOf bs := by
  induction bs with
  | nil => rfl
  | cons b bs ih =>
    simp only [List.map_cons, errsOf, List.flatMap_cons] at ih ⊢
    rw [ih]
    rfl

theorem kindResources_map_clear (bs : List Bundle) (k : Kind) :
    kindResources (bs.map clearTranslateErr) k = kindResources bs k := by
  induction bs with
  | nil => rfl
  | cons b bs ih =>
    simp only [List.map_cons, kindResources, List.flatMap_cons] at ih ⊢
    rw [ih]
    rfl

theorem validInfraKeys_map_clear (bs : List Bundle) :
    validInfraKeys (bs.map clearTranslateErr) = validInfraKeys bs := by
  simp only [validInfraKeys, validInfraEntries_map_clear]

/-! ### Claim theorems -/

/-- Claim C1, counterexample: starting from empty planes, a snapshot whose
single bundle yields key `k` with an invalid InfraIR entry but a valid
XdsIR entry ends the generation with `k` stored in the XdsIR plane only,
so the two planes' key sets differ and a key stored into one plane was
not stored into the other. -/
theorem C1_counterexample :
    "k" ∈ keysOf (handleValue emptyState [mismatchBundle]).state.xdsIR
      ∧ "k" ∉ keysOf (handleValue emptyState [mismatchBundle]).state.infraIR := by
  decide

/-- Claim C1 (amended): deletions are always applied to both
intermediate-representation planes in lockstep — for every value event,
unconditionally, each deleted key ends up absent from both planes — and
if additionally the two planes agree on their key sets before the
generation and the snapshot's valid InfraIR keys coincide with its valid
XdsIR keys, then after the generation the two planes' key sets are
equal. -/
theorem C1_planes_synced (s : RState) (bs : List Bundle) :
    (∀ x ∈ (handleValue s bs).delKeys,
        x ∉ keysOf (handleValue s bs).state.infraIR
          ∧ x ∉ keysOf (handleValue s bs).state.xdsIR)
      ∧ ((∀ x : String, x ∈ keysOf s.infraIR ↔ x ∈ keysOf s.xdsIR) →
          (∀ x : String, x ∈ validInfraKeys bs ↔ x ∈ validXdsKeys bs) →
          ∀ x : String, x ∈ keysOf (handleValue s bs).state.infraIR
            ↔ x ∈ keysOf (handleValue s bs).state.xdsIR) := by
  constructor
  · intro x hx
    rw [mem_handleValue_delKeys] at hx
    constructor
    · rw [mem_keysOf_handleValue_infraIR]
      exact hx.2
    · rw [mem_keysOf_handleValue_xdsIR]
      rintro ⟨_, hcon⟩
      exact hcon hx
  · intro hpre hvalid x
    simp only [mem_keysOf_handleValue_infraIR, mem_keysOf_handleValue_xdsIR]
    have h1 := hpre x
    have h2 := hvalid x
    tauto

/-- Witness for C1: at a synced state and a bundle valid in both planes,
the two planes agree on key `k` after the generation. -/
theorem C1_planes_synced_witness :
    ("k" ∈ keysOf (handleValue syncedState [matchBundle]).state.infraIR
      ↔ "k" ∈ keysOf (handleValue syncedState [matchBundle]).state.xdsIR) :=
  (C1_planes_synced syncedState [matchBundle]).2
    (fun _ => Iff.rfl) (fun _ => Iff.rfl) "k"

/-- Claim C2, counterexample: the teardown on a delete event iterates
only the InfraIR plane's keys, so a key present only in the XdsIR plane
survives the teardown; such a state is reachable — one generation from
empty stores whose bundle has an invalid InfraIR entry and a valid XdsIR
entry for key `k` leaves `k` in the XdsIR plane only, and the subsequent
delete event fails to remove it. -/
theorem C2_counterexample :
    "k" ∈ keysOf (handleValue emptyState [mismatchBundle]).state.xdsIR
      ∧ "k" ∈ keysOf (handleEvent (handleValue emptyState
          [mismatchBundle]).state ⟨true, none⟩).state.xdsIR := by
  decide

/-- Claim C2 (amended): after a delete or nil-value event the InfraIR
plane is empty, every key previously present in the InfraIR plane is
also absent from the XdsIR plane, and every one of the thirteen status
stores is empty; a key present only in the XdsIR plane may survive. -/
theorem C2_teardown (s : RState) (u : Update)
    (h : u.delete = true ∨ u.value = none) :
    (handleEvent s u).state.infraIR = []
      ∧ (∀ x : String, x ∈ keysOf s.infraIR →
          x ∉ keysOf (handleEvent s u).state.xdsIR)
      ∧ ∀ k : Kind, (handleEvent s u).state.statuses k = [] := by
  have hcond : (u.delete || u.value.isNone) = true := by
    rcases h with h | h
    · simp [h]
    · simp [h]
  have h1 : (handleEvent s u).state.infraIR = (deleteAllIRKeys s).1 := by
    unfold handleEvent
    rw [if_pos hcond]
  have h2 : (handleEvent s u).state.xdsIR = (deleteAllIRKeys s).2 := by
    unfold handleEvent
    rw [if_pos hcond]
  have h3 : ∀ k : Kind,
      (handleEvent s u).state.statuses k = deleteAllStatusKeys s.statuses k := by
    intro k
    unfold handleEvent
    rw [if_pos hcond]
  refine ⟨?_, ?_, ?_⟩
  · rw [h1]
    exact deleteAllIRKeys_fst s
  · intro x hx
    rw [h2, mem_keysOf_deleteAllIRKeys_snd]
    rintro ⟨_, hcon⟩
    exact hcon hx
  · intro k
    rw [h3 k]
    exact deleteAllStatusKeys_eq s.statuses k

/-- Witness for C2: the teardown empties the InfraIR plane and the
Gateway status store of a concrete state. -/
theorem C2_teardown_witness :
    (handleEvent xdsOnlyState ⟨true, none⟩).state.infraIR = []
      ∧ (handleEvent xdsOnlyState ⟨true, none⟩).state.statuses .gateway = [] := by
  have h := C2_teardown xdsOnlyState ⟨true, none⟩ (Or.inl rfl)
  exact ⟨h.1, h.2.2 .gateway⟩

/-- Claim C3: in a value generation, a status key is deleted (is among
the keys the cleanup phase removes for its kind) iff it was present in
that kind's status store before the generation and no resource with that
key appears in the generation's translation results for that kind; and
such a deleted key is indeed absent from the store afterwards. -/
theorem C3_status_deletion (s : RState) (bs : List Bundle) (k : Kind)
    (x : k.KeyOf) :
    (x ∈ (handleValue s bs).statusDelKeys k
        ↔ x ∈ keysOf (s.statuses k) ∧ x ∉ kindKeys bs k)
      ∧ (x ∈ (handleValue s bs).statusDelKeys k →
          lookupKV ((handleValue s bs).state.statuses k) x = none) :=
  ⟨mem_handleValue_statusDelKeys, fun hx => handleValue_status_deleted hx⟩

/-- Witness for C3: a Gateway status key present before a generation
whose results do not mention it is deleted, and gone afterwards. -/
theorem C3_status_deletion_witness :
    nn0 ∈ (handleValue gatewayStatusState []).statusDelKeys .gateway
      ∧ lookupKV ((handleValue gatewayStatusState []).state.statuses .gateway) nn0
          = none := by
  have h := C3_status_deletion gatewayStatusState [] .gateway nn0
  have hmem : nn0 ∈ (handleValue gatewayStatusState []).statusDelKeys .gateway :=
    h.1.mpr ⟨by decide, by decide⟩
  exact ⟨hmem, h.2 hmem⟩

/-- Claim C4, counterexample: the Gateway kind stores its produced status
unconditionally, so a Gateway appearing with an empty (zero) status
overwrites the previously stored status instead of leaving it
untouched. -/
theorem C4_counterexample :
    (nn0, 0) ∈ kindResources [gatewayZeroBundle] Kind.gateway
      ∧ lookupKV (gatewayStatusState.statuses Kind.gateway) nn0 = some 5
      ∧ lookupKV ((handleValue gatewayStatusState
          [gatewayZeroBundle]).state.statuses Kind.gateway) nn0 = some 0 := by
  decide

/-- Claim C4 (amended): for a resource key appearing in a generation's
translation results for its kind, the status entry afterwards is the
last stored write for that key — where a write is skipped exactly when
the kind is one of the policy/backend kinds (`checksZero = true`) and the
produced status is empty — and falls back to the pre-generation entry
when every produced status for that key was skipped; in particular, for
the policy/backend kinds an all-empty round leaves the entry unchanged,
while for Gateway and the route kinds even an empty status is stored. -/
theorem C4_status_write (s : RState) (bs : List Bundle) (k : Kind)
    (x : k.KeyOf) (hx : x ∈ kindKeys bs k) :
    lookupKV ((handleValue s bs).state.statuses k) x
        = (lastWrite k.checksZero x (kindResources bs k) none).or
            (lookupKV (s.statuses k) x)
      ∧ (k.checksZero = true →
          (∀ r ∈ kindResources bs k, r.1 = x → r.2 = 0) →
          lookupKV ((handleValue s bs).state.statuses k) x
            = lookupKV (s.statuses k) x) := by
  refine ⟨handleValue_status_lookup hx, ?_⟩
  intro hcz hall
  rw [handleValue_status_lookup hx]
  rw [lastWrite_eq_of_no_write (fun r hr h1 => ⟨hcz, hall r hr h1⟩)]
  rfl

/-- Witness for C4: a SecurityPolicy (a kind with the empty-status check)
appearing with an empty status keeps its previously stored status. -/
theorem C4_status_write_witness :
    lookupKV ((handleValue policyStatusState
        [policyZeroBundle]).state.statuses .securityPolicy) nn0 = some 5 := by
  have h := C4_status_write policyStatusState [policyZeroBundle]
    .securityPolicy nn0 (by decide)
  have h2 := h.2 rfl (by decide)
  rw [h2]
  decide

/-- Claim C5: the stale-key diff is the set difference of its inputs: its
elements are exactly the current keys absent from the new keys, it is
empty when the inputs are set-equal and when the first input is empty,
and deduplicating either input does not change the result (it is a total
function by construction). -/
theorem C5_diff (A B : List String) :
    (getIRKeysToDelete A B).toFinset = A.toFinset \ B.toFinset
      ∧ (A.toFinset = B.toFinset → getIRKeysToDelete A B = [])
      ∧ getIRKeysToDelete [] B = []
      ∧ getIRKeysToDelete A.dedup B.dedup = getIRKeysToDelete A B := by
  refine ⟨?_, ?_, ?_, ?_⟩
  · ext x
    simp [mem_getIRKeysToDelete]
  · intro h
    rw [List.eq_nil_iff_forall_not_mem]
    intro x hx
    rw [mem_getIRKeysToDelete] at hx
    have hxB : x ∈ B.toFinset := h ▸ List.mem_toFinset.2 hx.1
    exact hx.2 (List.mem_toFinset.1 hxB)
  · rfl
  · unfold getIRKeysToDelete
    rw [List.dedup_idem]
    congr 1
    apply List.filter_congr
    intro x _
    simp [List.mem_dedup]

/-- Witness for C5: set-equal inputs (up to duplicates) produce the empty
diff. -/
theorem C5_diff_witness : getIRKeysToDelete ["a", "a"] ["a"] = [] :=
  (C5_diff ["a", "a"] ["a"]).2.1 (by decide)

/-- Claim C6: the error channel receives exactly one error per invalid
IR entry (in order), `newIRKeys` collects exactly the valid InfraIR keys,
every valid entry of every bundle is present in its plane after the
bundle loop (it was published), and the bundle loop writes no entry that
did not validate: everything in a plane after the loop was either there
before the generation or is a valid entry of some bundle. -/
theorem C6_partial_failure (s : RState) (bs : List Bundle) :
    (handleValue s bs).errs = errsOf bs
      ∧ (handleValue s bs).newIRKeys = validInfraKeys bs
      ∧ (∀ e ∈ validInfraEntries bs, e.1 ∈ keysOf (handleValue s bs).midInfraIR)
      ∧ (∀ e ∈ validXdsEntries bs, e.1 ∈ keysOf (handleValue s bs).midXdsIR)
      ∧ (∀ p ∈ (handleValue s bs).midInfraIR,
          p ∈ s.infraIR ∨ (p ∈ validInfraEntries bs ∧ p.2.valid = true))
      ∧ (∀ p ∈ (handleValue s bs).midXdsIR,
          p ∈ s.xdsIR ∨ (p ∈ validXdsEntries bs ∧ p.2.valid = true)) := by
  refine ⟨handleValue_errs s bs, handleValue_newIRKeys s bs, ?_, ?_, ?_, ?_⟩
  · intro e he
    rw [handleValue_midInfraIR]
    exact mem_keysOf_storeEntries.2 (Or.inl (List.mem_map_of_mem _ he))
  · intro e he
    rw [handleValue_midXdsIR]
    exact mem_keysOf_storeEntries.2 (Or.inl (List.mem_map_of_mem _ he))
  · intro p hp
    rw [handleValue_midInfraIR] at hp
    rcases mem_storeEntries hp with h | h
    · exact Or.inr ⟨h, valid_of_mem_validInfraEntries h⟩
    · exact Or.inl h
  · intro p hp
    rw [handleValue_midXdsIR] at hp
    rcases mem_storeEntries hp with h | h
    · exact Or.inr ⟨h, valid_of_mem_validXdsEntries h⟩
    · exact Or.inl h

/-- Witness for C6: one bundle with an invalid InfraIR entry and a valid
XdsIR entry for the same key emits exactly that one error, while the
valid XdsIR entry is still published. -/
theorem C6_partial_failure_witness :
    (handleValue emptyState [mismatchBundle]).errs = [Err.infraInvalid "k"]
      ∧ "k" ∈ keysOf (handleValue emptyState [mismatchBundle]).midXdsIR := by
  have h := C6_partial_failure emptyState [mismatchBundle]
  refine ⟨h.1.trans (by decide), ?_⟩
  exact h.2.2.2.1 ("k", irValid) (by decide)

/-- Claim C7, counterexample: with the planes in sync on key `k` and a
snapshot whose InfraIR entry for `k` is invalid while its XdsIR entry is
valid, the first generation ends with `k` absent from the XdsIR plane but
the second generation with the same snapshot ends with `k` present, so
two consecutive generations of the same snapshot are not idempotent on
the XdsIR key set. -/
theorem C7_counterexample :
    "k" ∉ keysOf (handleValue syncedState [mismatchBundle]).state.xdsIR
      ∧ "k" ∈ keysOf (handleValue (handleValue syncedState
          [mismatchBundle]).state [mismatchBundle]).state.xdsIR := by
  decide

/-- Claim C7 (amended): processing the same snapshot twice is idempotent
on the InfraIR key set unconditionally — for every state and snapshot —
and on the XdsIR key set provided every valid XdsIR key of the snapshot
also has a valid InfraIR entry. -/
theorem C7_idempotent (s : RState) (bs : List Bundle) :
    (∀ x : String,
        x ∈ keysOf (handleValue (handleValue s bs).state bs).state.infraIR
          ↔ x ∈ keysOf (handleValue s bs).state.infraIR)
      ∧ ((∀ x : String, x ∈ validXdsKeys bs → x ∈ validInfraKeys bs) →
          ∀ x : String,
            x ∈ keysOf (handleValue (handleValue s bs).state bs).state.xdsIR
              ↔ x ∈ keysOf (handleValue s bs).state.xdsIR) := by
  constructor
  · intro x
    simp only [mem_keysOf_handleValue_infraIR]
  · intro h x
    simp only [mem_keysOf_handleValue_xdsIR, mem_keysOf_handleValue_infraIR]
    have := h x
    tauto

/-- Witness for C7: at a synced state with a bundle valid in both planes,
key `k`'s InfraIR membership is the same after the first and second
generation, and so is its XdsIR membership. -/
theorem C7_idempotent_witness :
    ("k" ∈ keysOf (handleValue (handleValue syncedState
        [matchBundle]).state [matchBundle]).state.infraIR
      ↔ "k" ∈ keysOf (handleValue syncedState [matchBundle]).state.infraIR)
      ∧ ("k" ∈ keysOf (handleValue (handleValue syncedState
          [matchBundle]).state [matchBundle]).state.xdsIR
        ↔ "k" ∈ keysOf (handleValue syncedState [matchBundle]).state.xdsIR) :=
  ⟨(C7_idempotent syncedState [matchBundle]).1 "k",
   (C7_idempotent syncedState [matchBundle]).2 (fun _ hx => hx) "k"⟩

/-- Claim C8: a key produced by any bundle of the generation (a member of
the `newIRKeys` accumulator) is never among the keys the generation's
cleanup deletes — deletions are computed only after all bundles are
processed — and is present in the InfraIR plane when the generation
completes. -/
theorem C8_no_transient_delete (s : RState) (bs : List Bundle) (x : String)
    (hx : x ∈ (handleValue s bs).newIRKeys) :
    x ∉ (handleValue s bs).delKeys
      ∧ x ∈ keysOf (handleValue s bs).state.infraIR := by
  rw [handleValue_newIRKeys] at hx
  constructor
  · rw [mem_handleValue_delKeys]
    rintro ⟨_, hcon⟩
    exact hcon hx
  · rw [mem_keysOf_handleValue_infraIR]
    exact hx

/-- Witness for C8: the key published by a valid bundle is not deleted
within its own generation even though it was already present. -/
theorem C8_no_transient_delete_witness :
    "k" ∉ (handleValue syncedState [matchBundle]).delKeys
      ∧ "k" ∈ keysOf (handleValue syncedState [matchBundle]).state.infraIR :=
  C8_no_transient_delete syncedState [matchBundle] "k" (by decide)

/-- Claim C9: the Translate error is not fatal — the final stores, the
error channel, `newIRKeys` and the deleted keys of a generation are the
same as if every bundle's Translate error were absent — and each
Translate error is logged. -/
theorem C9_translate_error_nonfatal (s : RState) (bs : List Bundle) :
    ((handleValue s (bs.map clearTranslateErr)).state.infraIR
        = (handleValue s bs).state.infraIR)
      ∧ ((handleValue s (bs.map clearTranslateErr)).state.xdsIR
        = (handleValue s bs).state.xdsIR)
      ∧ (∀ k : Kind, (handleValue s (bs.map clearTranslateErr)).state.statuses k
        = (handleValue s bs).state.statuses k)
      ∧ ((handleValue s (bs.map clearTranslateErr)).errs = (handleValue s bs).errs)
      ∧ ((handleValue s (bs.map clearTranslateErr)).newIRKeys
        = (handleValue s bs).newIRKeys)
      ∧ ((handleValue s (bs.map clearTranslateErr)).delKeys
        = (handleValue s bs).delKeys)
      ∧ ∀ b ∈ bs, ∀ e : String, b.translateErr = some e →
          e ∈ (handleValue s bs).log := by
  refine ⟨?_, ?_, ?_, ?_, ?_, ?_, ?_⟩
  · rw [handleValue_state_infraIR, handleValue_state_infraIR,
      validInfraKeys_map_clear, validInfraEntries_map_clear]
  · rw [handleValue_state_xdsIR, handleValue_state_xdsIR,
      validInfraKeys_map_clear, validXdsEntries_map_clear]
  · intro k
    rw [handleValue_state_statuses, handleValue_state_statuses,
      kindResources_map_clear]
  · rw [handleValue_errs, handleValue_errs, errsOf_map_clear]
  · rw [handleValue_newIRKeys, handleValue_newIRKeys, validInfraKeys_map_clear]
  · rw [handleValue_delKeys, handleValue_delKeys, validInfraKeys_map_clear]
  · intro b hb e he
    rw [handleValue_log]
    refine List.mem_flatMap.2 ⟨b, hb, ?_⟩
    rw [he]
    exact List.mem_singleton.2 rfl

/-- Witness for C9: a bundle whose translation errored changes no store
compared to an error-free run, and its error text is logged. -/
theorem C9_translate_error_nonfatal_witness :
    ((handleValue emptyState ([errBundle].map clearTranslateErr)).state.infraIR
        = (handleValue emptyState [errBundle]).state.infraIR)
      ∧ "boom" ∈ (handleValue emptyState [errBundle]).log := by
  have h := C9_translate_error_nonfatal emptyState [errBundle]
  exact ⟨h.1, h.2.2.2.2.2.2 errBundle (List.mem_singleton.2 rfl) "boom" rfl⟩

/-- Claim C10: the stale-key diff's output has no duplicate entries and
is sorted in strictly increasing string order. -/
theorem C10_sorted_nodup (A B : List String) :
    (getIRKeysToDelete A B).Sorted (· < ·) ∧ (getIRKeysToDelete A B).Nodup := by
  have hnd : (getIRKeysToDelete A B).Nodup := by
    unfold getIRKeysToDelete
    exact ((List.perm_insertionSort _ _).nodup_iff).2 ((A.nodup_dedup).filter _)
  have hs : (getIRKeysToDelete A B).Sorted (· ≤ ·) := List.sorted_insertionSort _ _
  exact ⟨hs.lt_of_le hnd, hnd⟩

end GatewayAPIRunner
